import Mathlib

/-!
Verification of the Rule 111 scanner (`app/app.py`).

The scanner extracts `OPEN DATASET ... .` statement spans from a unit's
source text with the regex `STMT_RE = (?is)\bOPEN\s+DATASET\b[^.]*\.`,
classifies each span with `MODE_RE = (?i)\bIN\s+(TEXT|BINARY)\s+MODE\b`,
`TEXT_MODE_RE = (?i)\bIN\s+TEXT\s+MODE\b` and
`ENCODING_RE = (?i)\bENCODING\b\s+\S+`, and emits findings.

The embedding below models source text as `List Char` and renders each
regex as an executable matching function.  Modelling notes, each justified
against Python `re` semantics on the concrete patterns used here:

* `(?i)` case folding, `\w` and `\s` are modelled at their ASCII meaning
  (the keywords involved are all ASCII; source units are ASCII texts).
* A greedy `\s+` that is immediately followed by a letter atom can only
  match the maximal whitespace run: backtracking to a shorter run would
  put a whitespace character where the letter is required.  It is
  therefore embedded as "maximal run of whitespace, of length ≥ 1".
* `[^.]*\.` can only end at the first `.` at or after its start position:
  `[^.]` cannot consume a dot, and stopping earlier puts a non-dot
  character under the final `\.`.  It is embedded as "first dot, inclusive".
* `\b` before a letter-initial token holds iff the previous character is
  not a word character (or the position is the start of the text);
  `\b` after a letter-final token holds iff the next character is not a
  word character (or the position is the end of the text).
-/

namespace Rule111

/-- ASCII lower-casing on code points, the model of `(?i)` comparisons. -/
def lowN (c : Char) : Nat :=
  if 65 ≤ c.toNat ∧ c.toNat ≤ 90 then c.toNat + 32 else c.toNat

/-- Case-insensitive character comparison (`(?i)` on a literal). -/
def lowEq (k c : Char) : Bool := lowN k == lowN c

/-- Model of `\w` (ASCII): letters, digits, underscore. -/
def isWordChar (c : Char) : Bool :=
  decide ((48 ≤ c.toNat ∧ c.toNat ≤ 57) ∨ (65 ≤ c.toNat ∧ c.toNat ≤ 90) ∨
    (97 ≤ c.toNat ∧ c.toNat ≤ 122) ∨ c.toNat = 95)

/-- Model of `\s` (ASCII): space, tab, newline, carriage return, vertical tab, form feed. -/
def isSpaceChar (c : Char) : Bool :=
  decide (c.toNat = 32 ∨ c.toNat = 9 ∨ c.toNat = 10 ∨ c.toNat = 13 ∨
    c.toNat = 11 ∨ c.toNat = 12)

/-- The statement terminator character `.`. -/
def isDotChar (c : Char) : Bool := decide (c.toNat = 46)

/-- The newline character. -/
def isNlChar (c : Char) : Bool := decide (c.toNat = 10)

/-! Clause regexes (`MODE_RE`, `TEXT_MODE_RE`, `ENCODING_RE`) are searched
inside one statement's text, so they are embedded structurally on the
statement's character list. -/

/-- Match a literal keyword case-insensitively at the head of `l`,
returning the rest of the list. -/
def matchCI : List Char → List Char → Option (List Char)
  | [], l => some l
  | _ :: _, [] => none
  | k :: ks, c :: cs => if lowEq k c then matchCI ks cs else none

/-- Match `\s+` at the head of `l` (maximal run, see the modelling notes). -/
def eatSpaces : List Char → Option (List Char)
  | [] => none
  | c :: cs => if isSpaceChar c then some (cs.dropWhile isSpaceChar) else none

/-- Word-boundary after a letter-final token: next character is not a
word character, or the text ends here. -/
def headNotWord : List Char → Bool
  | [] => true
  | c :: _ => !isWordChar c

/-- Match of `IN\s+(TEXT|BINARY)\s+MODE\b` at the head of `l`
(the leading `\b` is checked by the caller `searchAux`). -/
def modeHead (l : List Char) : Bool :=
  match matchCI "in".data l with
  | none => false
  | some r1 =>
    match eatSpaces r1 with
    | none => false
    | some r2 =>
      match (match matchCI "text".data r2 with
             | some r => some r
             | none => matchCI "binary".data r2) with
      | none => false
      | some r3 =>
        match eatSpaces r3 with
        | none => false
        | some r4 =>
          match matchCI "mode".data r4 with
          | none => false
          | some r5 => headNotWord r5

/-- Match of `IN\s+TEXT\s+MODE\b` at the head of `l`. -/
def textModeHead (l : List Char) : Bool :=
  match matchCI "in".data l with
  | none => false
  | some r1 =>
    match eatSpaces r1 with
    | none => false
    | some r2 =>
      match matchCI "text".data r2 with
      | none => false
      | some r3 =>
        match eatSpaces r3 with
        | none => false
        | some r4 =>
          match matchCI "mode".data r4 with
          | none => false
          | some r5 => headNotWord r5

/-- Match of `ENCODING\b\s+\S+` at the head of `l`: after the keyword and
its trailing word boundary, `\s+` takes the maximal whitespace run, and
`\S+` then needs at least one remaining character (by maximality it is
not whitespace). -/
def encHead (l : List Char) : Bool :=
  match matchCI "encoding".data l with
  | none => false
  | some r1 =>
    if headNotWord r1 then
      match eatSpaces r1 with
      | none => false
      | some r2 => !r2.isEmpty
    else false

/-- Regex search for a letter-initial token pattern: try the head match
at every position whose previous character is not a word character
(the `\b` before the pattern); `prevWord` carries whether the previous
character was a word character. -/
def searchAux (f : List Char → Bool) : Bool → List Char → Bool
  | _, [] => false
  | prevWord, c :: cs => (!prevWord && f (c :: cs)) || searchAux f (isWordChar c) cs

/-- Embedding of `MODE_RE.search(stmt) is not None`. -/
def MODE_RE (stmt : List Char) : Bool := searchAux modeHead false stmt

/-- Embedding of `TEXT_MODE_RE.search(stmt) is not None`. -/
def TEXT_MODE_RE (stmt : List Char) : Bool := searchAux textModeHead false stmt

/-- Embedding of `ENCODING_RE.search(stmt) is not None`. -/
def ENCODING_RE (stmt : List Char) : Bool := searchAux encHead false stmt

/-! The statement regex `STMT_RE` is matched positionally over the whole
text, so its embedding works with offsets into the text. -/

/-- Word boundary before position `p` for a letter-initial token. -/
def notWordBefore (t : List Char) (p : Nat) : Bool :=
  p == 0 || (match t[p - 1]? with
             | some c => !isWordChar c
             | none => true)

/-- Word boundary after a letter-final token ending just before `p`. -/
def notWordAt (t : List Char) (p : Nat) : Bool :=
  match t[p]? with
  | some c => !isWordChar c
  | none => true

/-- Case-insensitive literal keyword at offset `p` of `t`. -/
def kwAt (t : List Char) : Nat → List Char → Bool
  | _, [] => true
  | p, k :: ks =>
    (match t[p]? with
     | some c => lowEq k c
     | none => false) && kwAt t (p + 1) ks

/-- Length of the whitespace run starting at offset `p` (fuelled scan;
the fuel `t.length - p` always suffices). -/
def spacesLenAux (t : List Char) : Nat → Nat → Nat
  | 0, _ => 0
  | fuel + 1, p =>
    match t[p]? with
    | some c => if isSpaceChar c then spacesLenAux t fuel (p + 1) + 1 else 0
    | none => 0

/-- Length of the maximal whitespace run starting at offset `p`. -/
def spacesLen (t : List Char) (p : Nat) : Nat := spacesLenAux t (t.length - p) p

/-- Offset of the first `.` at or after offset `p` (fuelled scan). -/
def firstDotAux (t : List Char) : Nat → Nat → Option Nat
  | 0, _ => none
  | fuel + 1, p =>
    match t[p]? with
    | some c => if isDotChar c then some p else firstDotAux t fuel (p + 1)
    | none => none

/-- Offset of the first `.` at or after offset `p`, if any. -/
def firstDotFrom (t : List Char) (p : Nat) : Option Nat :=
  firstDotAux t (t.length - p) p

/-- Match of `STMT_RE = (?is)\bOPEN\s+DATASET\b[^.]*\.` anchored at
offset `p`: word boundary, `OPEN`, at least one whitespace (maximal run),
`DATASET`, word boundary, then everything up to and including the first
`.`.  Returns the end offset (exclusive) of the match. -/
def STMT_RE_matchAt (t : List Char) (p : Nat) : Option Nat :=
  if notWordBefore t p && kwAt t p "open".data then
    let w := spacesLen t (p + 4)
    if decide (1 ≤ w) && (kwAt t (p + 4 + w) "dataset".data && notWordAt t (p + 4 + w + 7)) then
      match firstDotFrom t (p + 4 + w + 7) with
      | some d => some (d + 1)
      | none => none
    else none
  else none

/-- Leftmost match of `STMT_RE` at or after offset `p` (fuelled scan over
candidate start offsets). -/
def findFromAux (t : List Char) : Nat → Nat → Option (Nat × Nat)
  | 0, _ => none
  | fuel + 1, p =>
    match STMT_RE_matchAt t p with
    | some e => some (p, e)
    | none => findFromAux t fuel (p + 1)

/-- Embedding of `STMT_RE.finditer`: repeatedly take the leftmost match
and resume immediately after its end. -/
def STMT_RE_finditerAux (t : List Char) : Nat → Nat → List (Nat × Nat)
  | 0, _ => []
  | fuel + 1, p =>
    match findFromAux t (t.length + 1 - p) p with
    | none => []
    | some (s, e) => (s, e) :: STMT_RE_finditerAux t fuel e

/-- All `STMT_RE` match spans of `t`, left to right, non-overlapping. -/
def STMT_RE_finditer (t : List Char) : List (Nat × Nat) :=
  STMT_RE_finditerAux t (t.length + 1) 0

/-- Embedding of `line_of_offset`: `text.count("\n", 0, off) + 1`. -/
def line_of_offset (t : List Char) (off : Nat) : Nat :=
  (t.take off).countP isNlChar + 1

/-- Newline escaping of `snippet_at`: `.replace("\n", "\\n")`. -/
def escNl : List Char → List Char
  | [] => []
  | c :: cs => if isNlChar c then '\\' :: 'n' :: escNl cs else c :: escNl cs

/-- Embedding of `snippet_at`:
`text[max(0, start - 60) : min(len(text), end + 60)].replace("\n", "\\n")`
(note `start - 60` on `Nat` is already clamped at `0`). -/
def snippet_at (t : List Char) (s e : Nat) : List Char :=
  escNl ((t.drop (s - 60)).take (min t.length (e + 60) - (s - 60)))

/-- Embedding of the pydantic `Unit` model. -/
structure Unit where
  pgm_name : String
  inc_name : String
  type : String
  name : Option String := some ""
  start_line : Option Int := some 0
  end_line : Option Int := some 0
  code : Option (List Char) := some []
deriving DecidableEq

/-- Embedding of the finding dictionaries built by `scan_unit`. -/
structure Finding where
  pgm_name : String
  inc_name : String
  type : String
  name : Option String
  start_line : Option Int
  end_line : Option Int
  issue_type : String
  severity : String
  line : Nat
  message : String
  suggestion : String
  snippet : List Char
deriving DecidableEq

/-- Embedding of `src = unit.code or ""` (both `None` and `""` give `""`). -/
def srcOf (u : Unit) : List Char := u.code.getD []

/-- The statement text `m.group(0)` of a match span. -/
def sliceStmt (t : List Char) (sp : Nat × Nat) : List Char :=
  (t.drop sp.1).take (sp.2 - sp.1)

/-- The finding dictionary appended when `has_mode` is false. -/
def noModeFinding (u : Unit) (src : List Char) (sp : Nat × Nat) : Finding :=
  { pgm_name := u.pgm_name
    inc_name := u.inc_name
    type := u.type
    name := u.name
    start_line := u.start_line
    end_line := u.end_line
    issue_type := "OpenDatasetNoMode"
    severity := "warning"
    line := line_of_offset src sp.1
    message := "OPEN DATASET without MODE or ENCODING."
    suggestion := "Specify IN TEXT MODE ENCODING UTF-8 or IN BINARY MODE. OPEN DATASET without MODE or ENCODING."
    snippet := snippet_at src sp.1 sp.2 }

/-- The finding dictionary appended when `is_text_mode` holds and
`has_encoding` does not. -/
def textNoEncFinding (u : Unit) (src : List Char) (sp : Nat × Nat) : Finding :=
  { pgm_name := u.pgm_name
    inc_name := u.inc_name
    type := u.type
    name := u.name
    start_line := u.start_line
    end_line := u.end_line
    issue_type := "OpenDatasetTextNoEncoding"
    severity := "info"
    line := line_of_offset src sp.1
    message := "OPEN DATASET in TEXT MODE without explicit ENCODING."
    suggestion := "Add ENCODING UTF-8 (or the required codepage). OPEN DATASET without MODE or ENCODING."
    snippet := snippet_at src sp.1 sp.2 }

/-- The body of the `for m in STMT_RE.finditer(src)` loop of `scan_unit`:
at most one finding is appended per match (`continue` after the first). -/
def spanFinding (u : Unit) (src : List Char) (sp : Nat × Nat) : Option Finding :=
  let stmt := sliceStmt src sp
  let has_mode := MODE_RE stmt
  let is_text_mode := TEXT_MODE_RE stmt
  let has_encoding := ENCODING_RE stmt
  if !has_mode then some (noModeFinding u src sp)
  else if is_text_mode && !has_encoding then some (textNoEncFinding u src sp)
  else none

/-- Embedding of `scan_unit` (its `rule111_findings` list). -/
def scan_unit (u : Unit) : List Finding :=
  (STMT_RE_finditer (srcOf u)).filterMap (spanFinding u (srcOf u))

/-- Embedding of the `/remediate-array` handler `scan_rule111`: scan each
unit in order and keep exactly the units with a non-empty finding list,
paired with their findings. -/
def scan_rule111 : List Unit → List (Unit × List Finding)
  | [] => []
  | u :: rest =>
    let res := scan_unit u
    if res.isEmpty then scan_rule111 rest
    else (u, res) :: scan_rule111 rest

/-! ## Specification-side definitions

These render the natural-language spec's description of statement
extraction and snippet construction, to be compared with the embedded
code.  They are deliberately phrased the way the spec words them. -/

/-- Spec wording: `w` consecutive whitespace characters sit at offset `q`. -/
def allSpacesAt (t : List Char) (q w : Nat) : Bool :=
  (List.range w).all fun i =>
    match t[q + i]? with
    | some c => isSpaceChar c
    | none => false

/-- Spec wording: a case-insensitive occurrence, at offset `p`, of the
token sequence `OPEN DATASET` — the two words separated by some amount
of whitespace (possibly line breaks), delimited as tokens (not preceded
or followed by a word character). -/
def tokenOpenDatasetAt (t : List Char) (p : Nat) : Bool :=
  notWordBefore t p && (kwAt t p "open".data &&
  ((List.range (t.length + 1)).any fun w =>
    decide (1 ≤ w) && (allSpacesAt t (p + 4) w && (kwAt t (p + 4 + w) "dataset".data &&
      notWordAt t (p + 4 + w + 7)))))

/-- Spec wording: a statement span begins at an occurrence of the token
sequence `OPEN DATASET` and extends to the first `.` character after that
point, inclusive; an occurrence never followed by a `.` yields no span. -/
def stmtSpanSpec (t : List Char) (p : Nat) : Option Nat :=
  if tokenOpenDatasetAt t p then (firstDotFrom t p).map (· + 1) else none

/-- Spec wording for the whole extraction: spans come left to right,
leftmost match first, non-overlapping, the search resuming immediately
after the end of each found span, and nothing after the last span (or at
all, for an empty list) matches. -/
def SpansSpec : List Char → Nat → List (Nat × Nat) → Prop
  | t, i, [] => ∀ q, i ≤ q → stmtSpanSpec t q = none
  | t, i, (s, e) :: rest =>
    i ≤ s ∧ stmtSpanSpec t s = some e ∧
    (∀ q, i ≤ q → q < s → stmtSpanSpec t q = none) ∧ SpansSpec t e rest

/-- Spec wording for the snippet: the substring of the source text from
60 characters before the statement's start to 60 after its end, both
bounds clamped to the text, with every newline replaced by the two
characters backslash-n. -/
def specSnippet (t : List Char) (s e : Nat) : List Char :=
  ((t.take (min (e + 60) t.length)).drop (s - 60)).bind
    (fun c => if isNlChar c then ['\\', 'n'] else [c])

/-- The raw (unescaped) window of source text a snippet is cut from. -/
def windowAt (t : List Char) (s e : Nat) : List Char :=
  (t.drop (s - 60)).take (min t.length (e + 60) - (s - 60))

/-- The issue-type-and-severity-and-line core of a finding (everything
case-insensitivity must preserve; the snippet itself keeps the original
letter case of the source). -/
def findingCore (f : Finding) : String × String × Nat :=
  (f.issue_type, f.severity, f.line)

/-! ## Concrete units used to instantiate the theorems -/

/-- A unit with one `OPEN DATASET` statement and no mode clause. -/
def u0 : Unit :=
  { pgm_name := "ZPGM", inc_name := "ZINC", type := "PROG", name := some "MAIN",
    start_line := some 10, end_line := some 90,
    code := some "OPEN DATASET lv_file.".data }

/-- A unit whose source-text field is absent. -/
def unitNoCode : Unit :=
  { pgm_name := "P", inc_name := "I", type := "PROG", name := none,
    start_line := none, end_line := none, code := none }

/-- A unit with a single 134-character statement: its snippet is the whole
statement, far longer than 120 characters. -/
def u134 : Unit :=
  { pgm_name := "P1", inc_name := "I1", type := "PROG", name := some "N",
    start_line := some 1, end_line := some 5,
    code := some ("OPEN DATASET ".data ++ List.replicate 120 'a' ++ ['.']) }

/-- A pair of case-variant texts for the case-insensitivity claim. -/
def tLow : List Char := "open dataset f in text mode.".data

/-- The upper-case variant of `tLow`. -/
def tUp : List Char := "OPEN DATASET F IN TEXT MODE.".data

example : STMT_RE_finditer "OPEN DATASET f.".data = [(0, 15)] := by decide
example : STMT_RE_finditer "x REOPEN DATASET f. OPEN DATASET g.".data = [(20, 35)] := by decide
example : MODE_RE "open dataset f in text mode.".data = true := by decide
example : MODE_RE "open dataset f in binary mode.".data = true := by decide
example : MODE_RE "open dataset f.".data = false := by decide
example : ENCODING_RE "open dataset f in text mode encoding utf-8.".data = true := by decide
example : ENCODING_RE "open dataset f in text mode encoding.".data = false := by decide
example : TEXT_MODE_RE "open dataset f in binary mode.".data = false := by decide

/-! ## Character-class lemmas -/

theorem isSpaceChar_not_dot {c : Char} (h : isSpaceChar c = true) :
    isDotChar c = false := by
  simp [isSpaceChar] at h
  simp [isDotChar]
  omega

theorem lowEq_letter {k c : Char} (hk1 : 97 ≤ lowN k) (hk2 : lowN k ≤ 122)
    (h : lowEq k c = true) :
    isWordChar c = true ∧ isSpaceChar c = false ∧ isDotChar c = false := by
  have hc : lowN k = lowN c := by simpa [lowEq] using h
  rw [hc] at hk1 hk2
  unfold lowN at hk1 hk2
  by_cases h65 : 65 ≤ c.toNat ∧ c.toNat ≤ 90
  · rw [if_pos h65] at hk1 hk2
    refine ⟨?_, ?_, ?_⟩ <;> simp [isWordChar, isSpaceChar, isDotChar] <;> omega
  · rw [if_neg h65] at hk1 hk2
    refine ⟨?_, ?_, ?_⟩ <;> simp [isWordChar, isSpaceChar, isDotChar] <;> omega

theorem kw_open_letters : ∀ k ∈ "open".data, 97 ≤ lowN k ∧ lowN k ≤ 122 := by decide

theorem kw_dataset_letters : ∀ k ∈ "dataset".data, 97 ≤ lowN k ∧ lowN k ≤ 122 := by decide

/-! ## Keyword-at-offset lemmas -/

theorem kwAt_chars {t : List Char} {kw : List Char} :
    ∀ {p : Nat}, kwAt t p kw = true → ∀ j, p ≤ j → j < p + kw.length →
      ∃ c k, t[j]? = some c ∧ k ∈ kw ∧ lowEq k c = true := by
  induction kw with
  | nil =>
    intro p _ j h1 h2
    simp at h2
    omega
  | cons k ks ih =>
    intro p h j h1 h2
    cases hg : t[p]? with
    | none => simp [kwAt, hg] at h
    | some c =>
      simp [kwAt, hg] at h
      obtain ⟨hke, hrest⟩ := h
      rcases Nat.eq_or_lt_of_le h1 with rfl | hlt
      · exact ⟨c, k, hg, by simp, hke⟩
      · obtain ⟨c2, k2, hc2, hk2, he2⟩ := ih hrest j hlt (by simp at h2 ⊢; omega)
        exact ⟨c2, k2, hc2, by simp [hk2], he2⟩

/-- Characters matched by a lowercase-letter keyword are never dots
(and the corresponding text offsets exist). -/
theorem kwAt_no_dot {t : List Char} {kw : List Char}
    (hl : ∀ k ∈ kw, 97 ≤ lowN k ∧ lowN k ≤ 122) {p : Nat}
    (h : kwAt t p kw = true) : ∀ j, p ≤ j → j < p + kw.length →
      ∃ c, t[j]? = some c ∧ isDotChar c = false := by
  intro j h1 h2
  obtain ⟨c, k, hc, hk, he⟩ := kwAt_chars h j h1 h2
  obtain ⟨hk1, hk2⟩ := hl k hk
  exact ⟨c, hc, (lowEq_letter hk1 hk2 he).2.2⟩

theorem kwAt_le_length {t : List Char} {kw : List Char} {p : Nat}
    (hne : kw ≠ []) (h : kwAt t p kw = true) : p + kw.length ≤ t.length := by
  have hlt : p + (kw.length - 1) < p + kw.length := by
    cases kw with
    | nil => exact absurd rfl hne
    | cons a l => simp
  obtain ⟨c, _, hc, _, _⟩ := kwAt_chars h (p + (kw.length - 1)) (by omega) hlt
  have := (List.getElem?_eq_some_iff.mp hc).1
  cases kw with
  | nil => exact absurd rfl hne
  | cons a l => simp at this ⊢; omega

/-! ## Whitespace-run lemmas -/

theorem spacesLen_step {t : List Char} {p : Nat} :
    spacesLen t p = match t[p]? with
      | none => 0
      | some c => if isSpaceChar c then spacesLen t (p + 1) + 1 else 0 := by
  unfold spacesLen
  cases hg : t[p]? with
  | none =>
    cases hf : t.length - p <;> simp [spacesLenAux, hg]
  | some c =>
    have hp : p < t.length := (List.getElem?_eq_some_iff.mp hg).1
    have hf : t.length - p = (t.length - (p + 1)) + 1 := by omega
    rw [hf]
    simp [spacesLenAux, hg]

theorem spacesLen_spaces {t : List Char} :
    ∀ (k : Nat) {p : Nat}, k < spacesLen t p →
      ∃ c, t[p + k]? = some c ∧ isSpaceChar c = true := by
  intro k
  induction k with
  | zero =>
    intro p h
    rw [spacesLen_step] at h
    cases hg : t[p]? with
    | none => simp only [hg] at h; simp at h
    | some c =>
      simp only [hg] at h
      by_cases hs : isSpaceChar c = true
      · exact ⟨c, by simpa using hg, hs⟩
      · rw [if_neg hs] at h; simp at h
  | succ k ih =>
    intro p h
    rw [spacesLen_step] at h
    cases hg : t[p]? with
    | none => simp only [hg] at h; simp at h
    | some c =>
      simp only [hg] at h
      by_cases hs : isSpaceChar c = true
      · rw [if_pos hs] at h
        have h2 : k < spacesLen t (p + 1) := by omega
        obtain ⟨c2, hc2, hs2⟩ := ih h2
        refine ⟨c2, ?_, hs2⟩
        have : p + (k + 1) = (p + 1) + k := by omega
        rw [this]
        exact hc2
      · rw [if_neg hs] at h; simp at h

theorem spacesLen_stop {t : List Char} :
    ∀ (w : Nat) {p : Nat}, spacesLen t p = w →
      t[p + w]? = none ∨
        ∃ c, t[p + w]? = some c ∧ isSpaceChar c = false := by
  intro w
  induction w with
  | zero =>
    intro p h
    rw [spacesLen_step] at h
    cases hg : t[p]? with
    | none => left; simpa using hg
    | some c =>
      simp only [hg] at h
      by_cases hs : isSpaceChar c = true
      · rw [if_pos hs] at h; simp at h
      · right
        exact ⟨c, by simpa using hg, by simpa using hs⟩
  | succ w ih =>
    intro p h
    rw [spacesLen_step] at h
    cases hg : t[p]? with
    | none => simp only [hg] at h; simp at h
    | some c =>
      simp only [hg] at h
      by_cases hs : isSpaceChar c = true
      · rw [if_pos hs] at h
        have h2 : spacesLen t (p + 1) = w := by omega
        have : p + (w + 1) = (p + 1) + w := by omega
        rw [this]
        exact ih h2
      · rw [if_neg hs] at h; simp at h

theorem spacesLen_unique {t : List Char} :
    ∀ (w : Nat) {p : Nat},
      (∀ i, i < w → ∃ c, t[p + i]? = some c ∧ isSpaceChar c = true) →
      (∃ c, t[p + w]? = some c ∧ isSpaceChar c = false) →
      spacesLen t p = w := by
  intro w
  induction w with
  | zero =>
    intro p _ hstop
    obtain ⟨c, hc, hs⟩ := hstop
    rw [spacesLen_step]
    simp at hc
    simp [hc, hs]
  | succ w ih =>
    intro p hrun hstop
    obtain ⟨c, hc, hs⟩ := hrun 0 (by omega)
    simp at hc
    rw [spacesLen_step]
    simp only [hc, if_pos hs]
    have hrun2 : ∀ i, i < w → ∃ c2, t[(p + 1) + i]? = some c2 ∧ isSpaceChar c2 = true := by
      intro i hi
      have : (p + 1) + i = p + (i + 1) := by omega
      rw [this]
      exact hrun (i + 1) (by omega)
    have hstop2 : ∃ c2, t[(p + 1) + w]? = some c2 ∧ isSpaceChar c2 = false := by
      have : (p + 1) + w = p + (w + 1) := by omega
      rw [this]
      exact hstop
    rw [ih hrun2 hstop2]

/-! ## First-dot lemmas -/

theorem firstDot_step {t : List Char} {p : Nat} :
    firstDotFrom t p = match t[p]? with
      | none => none
      | some c => if isDotChar c then some p else firstDotFrom t (p + 1) := by
  unfold firstDotFrom
  cases hg : t[p]? with
  | none =>
    cases hf : t.length - p <;> simp [firstDotAux, hg]
  | some c =>
    have hp : p < t.length := (List.getElem?_eq_some_iff.mp hg).1
    have hf : t.length - p = (t.length - (p + 1)) + 1 := by omega
    rw [hf]
    simp [firstDotAux, hg]

theorem firstDotAux_some {t : List Char} :
    ∀ (fuel : Nat) {p d : Nat}, firstDotAux t fuel p = some d →
      p ≤ d ∧ d < t.length ∧ (∃ c, t[d]? = some c ∧ isDotChar c = true) ∧
        ∀ j, p ≤ j → j < d → ∃ c, t[j]? = some c ∧ isDotChar c = false := by
  intro fuel
  induction fuel with
  | zero => intro p d h; simp [firstDotAux] at h
  | succ fuel ih =>
    intro p d h
    cases hg : t[p]? with
    | none => simp [firstDotAux, hg] at h
    | some c =>
      simp [firstDotAux, hg] at h
      by_cases hc : isDotChar c = true
      · rw [if_pos hc] at h
        simp at h
        subst h
        exact ⟨Nat.le_refl p, (List.getElem?_eq_some_iff.mp hg).1, ⟨c, hg, hc⟩,
          fun j h1 h2 => absurd (Nat.lt_of_le_of_lt h1 h2) (Nat.lt_irrefl p)⟩
      · rw [if_neg hc] at h
        obtain ⟨h1, h2, h3, h4⟩ := ih h
        refine ⟨by omega, h2, h3, ?_⟩
        intro j hj1 hj2
        rcases Nat.eq_or_lt_of_le hj1 with rfl | hlt
        · exact ⟨c, hg, by simpa using hc⟩
        · exact h4 j hlt hj2

theorem firstDot_some {t : List Char} {p d : Nat} (h : firstDotFrom t p = some d) :
    p ≤ d ∧ d < t.length ∧ (∃ c, t[d]? = some c ∧ isDotChar c = true) ∧
      ∀ j, p ≤ j → j < d → ∃ c, t[j]? = some c ∧ isDotChar c = false :=
  firstDotAux_some (t.length - p) h

theorem firstDotAux_none {t : List Char} :
    ∀ (fuel : Nat) {p : Nat}, t.length - p ≤ fuel → firstDotAux t fuel p = none →
      ∀ j, p ≤ j → ∀ c, t[j]? = some c → isDotChar c = false := by
  intro fuel
  induction fuel with
  | zero =>
    intro p hf _ j hj c hc
    have := (List.getElem?_eq_some_iff.mp hc).1
    omega
  | succ fuel ih =>
    intro p hf h j hj c hc
    cases hg : t[p]? with
    | none =>
      have hlen : t.length ≤ p := List.getElem?_eq_none_iff.mp hg
      have := (List.getElem?_eq_some_iff.mp hc).1
      omega
    | some cp =>
      have hp : p < t.length := (List.getElem?_eq_some_iff.mp hg).1
      simp [firstDotAux, hg] at h
      by_cases hdot : isDotChar cp = true
      · rw [if_pos hdot] at h; simp at h
      · rw [if_neg hdot] at h
        rcases Nat.eq_or_lt_of_le hj with rfl | hlt
        · simp only [hg] at hc
          cases hc
          simpa using hdot
        · exact ih (by omega) h j hlt c hc

theorem firstDot_none {t : List Char} {p : Nat} (h : firstDotFrom t p = none) :
    ∀ j, p ≤ j → ∀ c, t[j]? = some c → isDotChar c = false :=
  firstDotAux_none (t.length - p) (Nat.le_refl _) h

theorem firstDot_skip {t : List Char} :
    ∀ (k : Nat) {p : Nat},
      (∀ j, p ≤ j → j < p + k → ∃ c, t[j]? = some c ∧ isDotChar c = false) →
      firstDotFrom t p = firstDotFrom t (p + k) := by
  intro k
  induction k with
  | zero => intro p _; rfl
  | succ k ih =>
    intro p hnd
    obtain ⟨c, hc, hcd⟩ := hnd p (Nat.le_refl p) (by omega)
    rw [firstDot_step]
    simp only [hc, hcd, Bool.false_eq_true, if_false]
    have h2 : ∀ j, (p + 1) ≤ j → j < (p + 1) + k →
        ∃ c2, t[j]? = some c2 ∧ isDotChar c2 = false := by
      intro j h1 h2
      exact hnd j (by omega) (by omega)
    have : p + (k + 1) = (p + 1) + k := by omega
    rw [this]
    exact ih h2

/-! ## Equivalence of the embedded `STMT_RE` match with the spec's wording -/

theorem open_data_length : ("open".data).length = 4 := rfl

theorem dataset_data_length : ("dataset".data).length = 7 := rfl

/-- Characters matched by a lowercase-letter keyword are word characters,
not whitespace and not dots. -/
theorem kwAt_classes {t : List Char} {kw : List Char}
    (hl : ∀ k ∈ kw, 97 ≤ lowN k ∧ lowN k ≤ 122) {p : Nat}
    (h : kwAt t p kw = true) : ∀ j, p ≤ j → j < p + kw.length →
      ∃ c, t[j]? = some c ∧ isWordChar c = true ∧ isSpaceChar c = false ∧
        isDotChar c = false := by
  intro j h1 h2
  obtain ⟨c, k, hc, hk, he⟩ := kwAt_chars h j h1 h2
  obtain ⟨hk1, hk2⟩ := hl k hk
  obtain ⟨hw, hs, hd⟩ := lowEq_letter hk1 hk2 he
  exact ⟨c, hc, hw, hs, hd⟩

theorem allSpacesAt_iff {t : List Char} {q w : Nat} :
    allSpacesAt t q w = true ↔
      ∀ i, i < w → ∃ c, t[q + i]? = some c ∧ isSpaceChar c = true := by
  unfold allSpacesAt
  rw [List.all_eq_true]
  constructor
  · intro h i hi
    have h2 := h i (List.mem_range.mpr hi)
    cases hg : t[q + i]? with
    | none => simp [hg] at h2
    | some c =>
      simp only [hg] at h2
      exact ⟨c, rfl, h2⟩
  · intro h x hx
    obtain ⟨c, hc, hs⟩ := h x (List.mem_range.mp hx)
    simp [hc, hs]

theorem tokenOpenDatasetAt_iff {t : List Char} {p : Nat} :
    tokenOpenDatasetAt t p = true ↔
      notWordBefore t p = true ∧ kwAt t p "open".data = true ∧
        1 ≤ spacesLen t (p + 4) ∧
        kwAt t (p + 4 + spacesLen t (p + 4)) "dataset".data = true ∧
        notWordAt t (p + 4 + spacesLen t (p + 4) + 7) = true := by
  constructor
  · intro h
    simp only [tokenOpenDatasetAt, Bool.and_eq_true, List.any_eq_true,
      List.mem_range, decide_eq_true_eq] at h
    obtain ⟨hb, ho, w, hwlt, hw1, hsp, hds, hnw⟩ := h
    have hrun : ∀ i, i < w → ∃ c, t[(p + 4) + i]? = some c ∧ isSpaceChar c = true :=
      allSpacesAt_iff.mp hsp
    have hstop : ∃ c, t[(p + 4) + w]? = some c ∧ isSpaceChar c = false := by
      obtain ⟨c, hc, _, hs, _⟩ := kwAt_classes kw_dataset_letters hds
        (p + 4 + w) (Nat.le_refl _) (by rw [dataset_data_length]; omega)
      exact ⟨c, by simpa using hc, hs⟩
    have hlen : spacesLen t (p + 4) = w := spacesLen_unique w hrun hstop
    rw [hlen]
    exact ⟨hb, ho, by omega, hds, hnw⟩
  · intro ⟨hb, ho, hw1, hds, hnw⟩
    simp only [tokenOpenDatasetAt, Bool.and_eq_true, List.any_eq_true,
      List.mem_range, decide_eq_true_eq]
    refine ⟨hb, ho, spacesLen t (p + 4), ?_, hw1, ?_, hds, hnw⟩
    · have := kwAt_le_length (by decide) hds
      rw [dataset_data_length] at this
      omega
    · rw [allSpacesAt_iff]
      intro i hi
      exact spacesLen_spaces i hi

/-- Everything the head of a matched statement covers (keywords and the
whitespace run) is dot-free. -/
theorem token_head_no_dot {t : List Char} {p : Nat}
    (htok : tokenOpenDatasetAt t p = true) :
    ∀ j, p ≤ j → j < p + 4 + spacesLen t (p + 4) + 7 →
      ∃ c, t[j]? = some c ∧ isDotChar c = false := by
  obtain ⟨_, ho, _, hds, _⟩ := tokenOpenDatasetAt_iff.mp htok
  intro j h1 h2
  by_cases hj1 : j < p + 4
  · obtain ⟨c, hc, _, _, hd⟩ := kwAt_classes kw_open_letters ho j h1
      (by rw [open_data_length]; omega)
    exact ⟨c, hc, hd⟩
  · by_cases hj2 : j < p + 4 + spacesLen t (p + 4)
    · obtain ⟨c, hc, hs⟩ := @spacesLen_spaces t (j - (p + 4)) (p + 4)
        (by omega)
      have hx : (p + 4) + (j - (p + 4)) = j := by omega
      rw [hx] at hc
      exact ⟨c, hc, isSpaceChar_not_dot hs⟩
    · obtain ⟨c, hc, _, _, hd⟩ := kwAt_classes kw_dataset_letters hds j
        (by omega) (by rw [dataset_data_length]; omega)
      exact ⟨c, hc, hd⟩

/-- The embedded `STMT_RE` anchored match agrees with the spec's wording
of a statement span (token-sequence head, first dot after the start). -/
theorem matchAt_eq_spec (t : List Char) (p : Nat) :
    STMT_RE_matchAt t p = stmtSpanSpec t p := by
  unfold STMT_RE_matchAt stmtSpanSpec
  by_cases htok : tokenOpenDatasetAt t p = true
  · obtain ⟨hb, ho, hw1, hds, hnw⟩ := tokenOpenDatasetAt_iff.mp htok
    rw [if_pos htok, if_pos (by simp [hb, ho]),
      if_pos (by simp [hds, hnw, hw1])]
    have hskip : firstDotFrom t p =
        firstDotFrom t (p + (4 + spacesLen t (p + 4) + 7)) := by
      apply firstDot_skip
      intro j h1 h2
      exact token_head_no_dot htok j h1 (by omega)
    have hx : p + 4 + spacesLen t (p + 4) + 7 = p + (4 + spacesLen t (p + 4) + 7) := by
      omega
    rw [hx, ← hskip]
    cases firstDotFrom t p <;> simp
  · rw [if_neg htok]
    by_cases h1 : (notWordBefore t p && kwAt t p "open".data) = true
    · rw [if_pos h1]
      simp only [Bool.and_eq_true] at h1
      by_cases h2 : (1 ≤ spacesLen t (p + 4) ∧
          kwAt t (p + 4 + spacesLen t (p + 4)) "dataset".data = true ∧
          notWordAt t (p + 4 + spacesLen t (p + 4) + 7) = true)
      · exact absurd (tokenOpenDatasetAt_iff.mpr ⟨h1.1, h1.2, h2.1, h2.2.1, h2.2.2⟩) htok
      · rw [if_neg ?hc]
        case hc =>
          intro hcon
          simp only [Bool.and_eq_true, decide_eq_true_eq] at hcon
          exact h2 ⟨hcon.1, hcon.2.1, hcon.2.2⟩
    · rw [if_neg h1]

/-! ## Properties of the statement-span iterator -/

theorem matchAt_none_of_ge {t : List Char} {p : Nat} (h : t.length ≤ p) :
    STMT_RE_matchAt t p = none := by
  have hg : t[p]? = none := List.getElem?_eq_none h
  have hkw : kwAt t p "open".data = false := by
    show kwAt t p ('o' :: "pen".data) = false
    simp [kwAt, hg]
  unfold STMT_RE_matchAt
  rw [if_neg (by simp [hkw])]

theorem matchAt_bounds {t : List Char} {p e : Nat}
    (h : STMT_RE_matchAt t p = some e) : p + 13 ≤ e ∧ e ≤ t.length := by
  rw [matchAt_eq_spec] at h
  unfold stmtSpanSpec at h
  by_cases htok : tokenOpenDatasetAt t p = true
  · rw [if_pos htok] at h
    cases hd : firstDotFrom t p with
    | none => rw [hd] at h; simp at h
    | some d =>
      rw [hd] at h
      simp at h
      obtain ⟨hpd, hlen, ⟨c, hcd, hdot⟩, _⟩ := firstDot_some hd
      obtain ⟨_, _, hw1, _, _⟩ := tokenOpenDatasetAt_iff.mp htok
      by_cases hdlt : d < p + 4 + spacesLen t (p + 4) + 7
      · obtain ⟨c2, hc2, hnd⟩ := token_head_no_dot htok d hpd hdlt
        rw [hcd] at hc2
        cases hc2
        rw [hdot] at hnd
        cases hnd
      · omega
  · rw [if_neg htok] at h
    simp at h

theorem findFromAux_some {t : List Char} :
    ∀ (fuel : Nat) {p s e : Nat}, findFromAux t fuel p = some (s, e) →
      p ≤ s ∧ STMT_RE_matchAt t s = some e ∧
        ∀ q, p ≤ q → q < s → STMT_RE_matchAt t q = none := by
  intro fuel
  induction fuel with
  | zero => intro p s e h; simp [findFromAux] at h
  | succ fuel ih =>
    intro p s e h
    cases hm : STMT_RE_matchAt t p with
    | some e2 =>
      simp [findFromAux, hm] at h
      obtain ⟨rfl, rfl⟩ := h
      exact ⟨Nat.le_refl p, hm, fun q h1 h2 => by omega⟩
    | none =>
      simp [findFromAux, hm] at h
      obtain ⟨h1, h2, h3⟩ := ih h
      refine ⟨by omega, h2, ?_⟩
      intro q hq1 hq2
      rcases Nat.eq_or_lt_of_le hq1 with rfl | hlt
      · exact hm
      · exact h3 q hlt hq2

theorem findFromAux_none {t : List Char} :
    ∀ (fuel : Nat) {p : Nat}, findFromAux t fuel p = none →
      ∀ q, p ≤ q → q < p + fuel → STMT_RE_matchAt t q = none := by
  intro fuel
  induction fuel with
  | zero => intro p _ q h1 h2; omega
  | succ fuel ih =>
    intro p h q h1 h2
    cases hm : STMT_RE_matchAt t p with
    | some e2 => simp [findFromAux, hm] at h
    | none =>
      simp [findFromAux, hm] at h
      rcases Nat.eq_or_lt_of_le h1 with rfl | hlt
      · exact hm
      · exact ih h q hlt (by omega)

theorem finditerAux_spans {t : List Char} :
    ∀ (fuel : Nat) {p : Nat}, t.length + 1 ≤ fuel + p →
      SpansSpec t p (STMT_RE_finditerAux t fuel p) := by
  intro fuel
  induction fuel with
  | zero =>
    intro p hf
    show ∀ q, p ≤ q → stmtSpanSpec t q = none
    intro q hq
    rw [← matchAt_eq_spec]
    exact matchAt_none_of_ge (by omega)
  | succ fuel ih =>
    intro p hf
    show SpansSpec t p (match findFromAux t (t.length + 1 - p) p with
      | none => []
      | some (s, e) => (s, e) :: STMT_RE_finditerAux t fuel e)
    cases hfind : findFromAux t (t.length + 1 - p) p with
    | none =>
      show ∀ q, p ≤ q → stmtSpanSpec t q = none
      intro q hq
      rw [← matchAt_eq_spec]
      by_cases hql : q ≤ t.length
      · exact findFromAux_none _ hfind q hq (by omega)
      · exact matchAt_none_of_ge (by omega)
    | some se =>
      obtain ⟨s, e⟩ := se
      obtain ⟨hps, hm, hleft⟩ := findFromAux_some _ hfind
      obtain ⟨hb1, hb2⟩ := matchAt_bounds hm
      refine ⟨hps, ?_, ?_, ?_⟩
      · rw [← matchAt_eq_spec]; exact hm
      · intro q h1 h2
        rw [← matchAt_eq_spec]
        exact hleft q h1 h2
      · exact ih (by omega)

theorem finditerAux_mem {t : List Char} :
    ∀ (fuel : Nat) {p : Nat} {sp : Nat × Nat},
      sp ∈ STMT_RE_finditerAux t fuel p →
        p ≤ sp.1 ∧ STMT_RE_matchAt t sp.1 = some sp.2 := by
  intro fuel
  induction fuel with
  | zero => intro p sp h; simp [STMT_RE_finditerAux] at h
  | succ fuel ih =>
    intro p sp h
    simp only [STMT_RE_finditerAux] at h
    cases hfind : findFromAux t (t.length + 1 - p) p with
    | none => rw [hfind] at h; simp at h
    | some se =>
      obtain ⟨s, e⟩ := se
      rw [hfind] at h
      obtain ⟨hps, hm, _⟩ := findFromAux_some _ hfind
      obtain ⟨hb1, _⟩ := matchAt_bounds hm
      rcases List.mem_cons.mp h with rfl | htail
      · exact ⟨hps, hm⟩
      · obtain ⟨h1, h2⟩ := ih htail
        exact ⟨by omega, h2⟩

theorem finditer_mem {t : List Char} {sp : Nat × Nat}
    (h : sp ∈ STMT_RE_finditer t) : STMT_RE_matchAt t sp.1 = some sp.2 :=
  (finditerAux_mem _ h).2

theorem finditerAux_pairwise {t : List Char} :
    ∀ (fuel : Nat) {p : Nat},
      List.Pairwise (fun a b : Nat × Nat => a.2 ≤ b.1 ∧ a.1 < b.1)
        (STMT_RE_finditerAux t fuel p) := by
  intro fuel
  induction fuel with
  | zero => intro p; simp [STMT_RE_finditerAux]
  | succ fuel ih =>
    intro p
    show List.Pairwise _ (match findFromAux t (t.length + 1 - p) p with
      | none => []
      | some (s, e) => (s, e) :: STMT_RE_finditerAux t fuel e)
    cases hfind : findFromAux t (t.length + 1 - p) p with
    | none => simp
    | some se =>
      obtain ⟨s, e⟩ := se
      obtain ⟨_, hm, _⟩ := findFromAux_some _ hfind
      obtain ⟨hb1, _⟩ := matchAt_bounds hm
      refine List.Pairwise.cons ?_ ih
      intro b hb
      obtain ⟨heb, _⟩ := finditerAux_mem fuel hb
      exact ⟨heb, by omega⟩

theorem finditer_pairwise (t : List Char) :
    List.Pairwise (fun a b : Nat × Nat => a.2 ≤ b.1 ∧ a.1 < b.1)
      (STMT_RE_finditer t) :=
  finditerAux_pairwise _

/-! ## Snippet and window lemmas -/

theorem escNl_eq_bind (l : List Char) :
    escNl l = l.bind (fun c => if isNlChar c then ['\\', 'n'] else [c]) := by
  induction l with
  | nil => rfl
  | cons c cs ih =>
    by_cases h : isNlChar c = true <;> simp [escNl, h, ih]

theorem escNl_length (l : List Char) :
    (escNl l).length = l.length + l.countP isNlChar := by
  induction l with
  | nil => rfl
  | cons c cs ih =>
    by_cases h : isNlChar c = true <;> simp [escNl, h, ih, List.countP_cons] <;> omega

theorem escNl_no_nl (l : List Char) : ∀ c ∈ escNl l, isNlChar c = false := by
  induction l with
  | nil => intro c h; simp [escNl] at h
  | cons a as ih =>
    intro c h
    by_cases ha : isNlChar a = true
    · simp only [escNl, ha, if_true] at h
      rcases List.mem_cons.mp h with rfl | h2
      · decide
      · rcases List.mem_cons.mp h2 with rfl | h3
        · decide
        · exact ih c h3
    · have ha2 : isNlChar a = false := by simpa using ha
      simp only [escNl, ha2, Bool.false_eq_true, if_false] at h
      rcases List.mem_cons.mp h with rfl | h2
      · exact ha2
      · exact ih c h2

theorem snippet_at_eq_window (t : List Char) (s e : Nat) :
    snippet_at t s e = escNl (windowAt t s e) := rfl

theorem snippet_eq_spec (t : List Char) (s e : Nat) :
    snippet_at t s e = specSnippet t s e := by
  unfold snippet_at specSnippet
  rw [escNl_eq_bind, List.drop_take, Nat.min_comm]

theorem window_le {t : List Char} {s e : Nat} (hse : s ≤ e) :
    (windowAt t s e).length ≤ (e - s) + 120 := by
  have h1 : (windowAt t s e).length ≤ min t.length (e + 60) - (s - 60) := by
    rw [windowAt, List.length_take]
    exact Nat.min_le_left _ _
  have h2 : min t.length (e + 60) ≤ e + 60 := Nat.min_le_right _ _
  omega

theorem countP_take_mono (t : List Char) (pr : Char → Bool) {a b : Nat}
    (h : a ≤ b) : (t.take a).countP pr ≤ (t.take b).countP pr := by
  have he : t.take a = (t.take b).take a := by
    rw [List.take_take, Nat.min_eq_left h]
  rw [he]
  exact List.Sublist.countP_le pr (List.take_sublist a (t.take b))

theorem filterMap_eq_bind_toList {α β : Type} (f : α → Option β) (l : List α) :
    l.filterMap f = l.bind (fun a => (f a).toList) := by
  induction l with
  | nil => rfl
  | cons a as ih =>
    rw [List.filterMap_cons]
    cases hfa : f a <;> simp [ih, hfa]

/-! ## Per-span finding lemmas -/

theorem spanFinding_cases {u : Unit} {src : List Char} {sp : Nat × Nat}
    {f : Finding} (h : spanFinding u src sp = some f) :
    f = noModeFinding u src sp ∨ f = textNoEncFinding u src sp := by
  unfold spanFinding at h
  by_cases hm : MODE_RE (sliceStmt src sp) = true
  · simp only [hm, Bool.not_true, Bool.false_eq_true, if_false] at h
    by_cases ht : (TEXT_MODE_RE (sliceStmt src sp) && !ENCODING_RE (sliceStmt src sp)) = true
    · rw [if_pos ht] at h
      right
      exact (Option.some_inj.mp h).symm
    · rw [if_neg ht] at h
      cases h
  · have hm2 : MODE_RE (sliceStmt src sp) = false := by simpa using hm
    simp only [hm2, Bool.not_false, if_true] at h
    left
    exact (Option.some_inj.mp h).symm

theorem spanFinding_line {u : Unit} {src : List Char} {sp : Nat × Nat}
    {f : Finding} (h : spanFinding u src sp = some f) :
    f.line = line_of_offset src sp.1 := by
  rcases spanFinding_cases h with rfl | rfl <;> rfl

theorem spanFinding_snippet {u : Unit} {src : List Char} {sp : Nat × Nat}
    {f : Finding} (h : spanFinding u src sp = some f) :
    f.snippet = snippet_at src sp.1 sp.2 := by
  rcases spanFinding_cases h with rfl | rfl <;> rfl

/-! ## The claims -/

/-- C1: for every statement span extracted from a unit's source text,
`scan_unit` applies the two-step short-circuit policy: if the span has no
mode clause, exactly the `OpenDatasetNoMode` warning finding is emitted
and the second check never runs; otherwise, if the span is in text mode
without an encoding, exactly the `OpenDatasetTextNoEncoding` info finding
is emitted; otherwise no finding is emitted for that span — and
`scan_unit` is exactly the per-span concatenation of these emissions. -/
theorem c1_two_step_policy (u : Unit) (sp : Nat × Nat)
    (_hsp : sp ∈ STMT_RE_finditer (srcOf u)) :
    (MODE_RE (sliceStmt (srcOf u) sp) = false →
      spanFinding u (srcOf u) sp = some (noModeFinding u (srcOf u) sp) ∧
      (noModeFinding u (srcOf u) sp).issue_type = "OpenDatasetNoMode" ∧
      (noModeFinding u (srcOf u) sp).severity = "warning" ∧
      (noModeFinding u (srcOf u) sp).message =
        "OPEN DATASET without MODE or ENCODING.") ∧
    (MODE_RE (sliceStmt (srcOf u) sp) = true →
      TEXT_MODE_RE (sliceStmt (srcOf u) sp) = true →
      ENCODING_RE (sliceStmt (srcOf u) sp) = false →
      spanFinding u (srcOf u) sp = some (textNoEncFinding u (srcOf u) sp) ∧
      (textNoEncFinding u (srcOf u) sp).issue_type = "OpenDatasetTextNoEncoding" ∧
      (textNoEncFinding u (srcOf u) sp).severity = "info" ∧
      (textNoEncFinding u (srcOf u) sp).message =
        "OPEN DATASET in TEXT MODE without explicit ENCODING.") ∧
    (MODE_RE (sliceStmt (srcOf u) sp) = true →
      (TEXT_MODE_RE (sliceStmt (srcOf u) sp) = false ∨
        ENCODING_RE (sliceStmt (srcOf u) sp) = true) →
      spanFinding u (srcOf u) sp = none) ∧
    scan_unit u = (STMT_RE_finditer (srcOf u)).bind
      (fun x => (spanFinding u (srcOf u) x).toList) := by
  refine ⟨?_, ?_, ?_, filterMap_eq_bind_toList _ _⟩
  · intro hm
    exact ⟨by simp [spanFinding, hm], rfl, rfl, rfl⟩
  · intro hm ht he
    exact ⟨by simp [spanFinding, hm, ht, he], rfl, rfl, rfl⟩
  · intro hm hcase
    rcases hcase with ht | he
    · simp [spanFinding, hm, ht]
    · simp [spanFinding, hm, he]

/-- Witness for C1 at a concrete unit: the single span of `u0` lacks a
mode clause, so exactly the warning finding is emitted. -/
theorem c1_witness :
    spanFinding u0 (srcOf u0) (0, 21) = some (noModeFinding u0 (srcOf u0) (0, 21)) ∧
    (noModeFinding u0 (srcOf u0) (0, 21)).severity = "warning" :=
  ⟨((c1_two_step_policy u0 (0, 21) (by decide)).1 (by decide)).1,
   ((c1_two_step_policy u0 (0, 21) (by decide)).1 (by decide)).2.2.1⟩

/-- C2: the statement spans analyzed by `scan_unit` are exactly the spans
that begin at a case-insensitive occurrence of the token sequence
`OPEN DATASET` and extend to the first `.` after that point, inclusive,
taken left to right, non-overlapping, the search resuming after each
span's end; an occurrence never followed by a `.` yields no span. -/
theorem c2_span_extraction (t : List Char) :
    SpansSpec t 0 (STMT_RE_finditer t) :=
  finditerAux_spans _ (by omega)

/-- C3 (amended): a finding's snippet is the escaped window around its
statement span; the window never exceeds the span's length plus 120
source characters; escaping adds exactly one character per newline of the
window; and the snippet contains no literal newline. -/
theorem c3_snippet_window_bounds (u : Unit) (f : Finding)
    (hf : f ∈ scan_unit u) :
    (∀ c ∈ f.snippet, isNlChar c = false) ∧
    ∃ sp ∈ STMT_RE_finditer (srcOf u),
      f.snippet = escNl (windowAt (srcOf u) sp.1 sp.2) ∧
      f.snippet.length = (windowAt (srcOf u) sp.1 sp.2).length +
        (windowAt (srcOf u) sp.1 sp.2).countP isNlChar ∧
      (windowAt (srcOf u) sp.1 sp.2).length ≤ (sp.2 - sp.1) + 120 := by
  obtain ⟨sp, hmem, hsp⟩ := List.mem_filterMap.mp hf
  have hsnip : f.snippet = escNl (windowAt (srcOf u) sp.1 sp.2) :=
    spanFinding_snippet hsp
  refine ⟨?_, sp, hmem, hsnip, ?_, ?_⟩
  · rw [hsnip]
    exact escNl_no_nl _
  · rw [hsnip]
    exact escNl_length _
  · obtain ⟨hb1, _⟩ := matchAt_bounds (finditer_mem hmem)
    exact window_le (by omega)

/-- Witness for C3's amended statement at the concrete unit `u0`. -/
theorem c3_witness :
    ∃ sp ∈ STMT_RE_finditer (srcOf u0),
      (noModeFinding u0 (srcOf u0) (0, 21)).snippet =
        escNl (windowAt (srcOf u0) sp.1 sp.2) ∧
      (noModeFinding u0 (srcOf u0) (0, 21)).snippet.length =
        (windowAt (srcOf u0) sp.1 sp.2).length +
          (windowAt (srcOf u0) sp.1 sp.2).countP isNlChar ∧
      (windowAt (srcOf u0) sp.1 sp.2).length ≤ (sp.2 - sp.1) + 120 :=
  (c3_snippet_window_bounds u0 (noModeFinding u0 (srcOf u0) (0, 21)) (by decide)).2

set_option maxRecDepth 4000 in
/-- Counterexample to C3 as stated: the 134-character statement of `u134`
yields a snippet of 134 characters with zero escaping overhead (no
backslashes at all), exceeding 120. -/
theorem c3_counterexample :
    ¬ ∀ f ∈ scan_unit u134,
        f.snippet.length ≤ 120 + f.snippet.countP (fun c => c == '\\') := by
  decide

/-- C4: every emitted finding's snippet equals the substring of the
source text from 60 before its span's start to 60 after its span's end,
clamped to the text, with newlines replaced by backslash-n. -/
theorem c4_snippet_equals_spec (u : Unit) (f : Finding)
    (hf : f ∈ scan_unit u) :
    ∃ sp ∈ STMT_RE_finditer (srcOf u),
      spanFinding u (srcOf u) sp = some f ∧
      f.snippet = specSnippet (srcOf u) sp.1 sp.2 := by
  obtain ⟨sp, hmem, hsp⟩ := List.mem_filterMap.mp hf
  refine ⟨sp, hmem, hsp, ?_⟩
  rw [spanFinding_snippet hsp, snippet_eq_spec]

/-- Witness for C4 at the concrete unit `u0`. -/
theorem c4_witness :
    ∃ sp ∈ STMT_RE_finditer (srcOf u0),
      spanFinding u0 (srcOf u0) sp = some (noModeFinding u0 (srcOf u0) (0, 21)) ∧
      (noModeFinding u0 (srcOf u0) (0, 21)).snippet =
        specSnippet (srcOf u0) sp.1 sp.2 :=
  c4_snippet_equals_spec u0 (noModeFinding u0 (srcOf u0) (0, 21)) (by decide)

/-- C5: every emitted finding's `line` is the newline count strictly
before its span's start plus one; spans come in strictly ascending start
order and the emitted findings' line numbers are non-decreasing. -/
theorem c5_line_numbers (u : Unit) (f : Finding) (hf : f ∈ scan_unit u) :
    (∃ sp ∈ STMT_RE_finditer (srcOf u),
      spanFinding u (srcOf u) sp = some f ∧
      f.line = ((srcOf u).take sp.1).countP isNlChar + 1) ∧
    List.Pairwise (fun a b : Nat × Nat => a.1 < b.1) (STMT_RE_finditer (srcOf u)) ∧
    List.Pairwise (fun a b => a ≤ b) ((scan_unit u).map Finding.line) := by
  refine ⟨?_, ?_, ?_⟩
  · obtain ⟨sp, hmem, hsp⟩ := List.mem_filterMap.mp hf
    exact ⟨sp, hmem, hsp, spanFinding_line hsp⟩
  · exact (finditer_pairwise _).imp (fun h => h.2)
  · have hp := finditer_pairwise (srcOf u)
    unfold scan_unit
    rw [List.map_filterMap, List.pairwise_filterMap]
    refine hp.imp ?_
    intro a b hab x hx y hy
    rw [Option.mem_def, Option.map_eq_some'] at hx hy
    obtain ⟨fa, hfa, hxa⟩ := hx
    obtain ⟨fb, hfb, hyb⟩ := hy
    rw [← hxa, ← hyb, spanFinding_line hfa, spanFinding_line hfb]
    unfold line_of_offset
    have := countP_take_mono (srcOf u) isNlChar (Nat.le_of_lt hab.2)
    omega

/-- Witness for C5: ascending span order at the concrete unit `u0`. -/
theorem c5_witness :
    List.Pairwise (fun a b : Nat × Nat => a.1 < b.1) (STMT_RE_finditer (srcOf u0)) :=
  (c5_line_numbers u0 (noModeFinding u0 (srcOf u0) (0, 21)) (by decide)).2.1

/-- C6: every finding carries the identity fields of the unit that
produced it, unchanged. -/
theorem c6_identity_fields (u : Unit) (f : Finding) (hf : f ∈ scan_unit u) :
    f.pgm_name = u.pgm_name ∧ f.inc_name = u.inc_name ∧ f.type = u.type ∧
    f.name = u.name ∧ f.start_line = u.start_line ∧ f.end_line = u.end_line := by
  obtain ⟨sp, _, hsp⟩ := List.mem_filterMap.mp hf
  rcases spanFinding_cases hsp with rfl | rfl <;>
    exact ⟨rfl, rfl, rfl, rfl, rfl, rfl⟩

/-- Witness for C6 at the concrete unit `u0`. -/
theorem c6_witness :
    (noModeFinding u0 (srcOf u0) (0, 21)).pgm_name = u0.pgm_name ∧
    (noModeFinding u0 (srcOf u0) (0, 21)).inc_name = u0.inc_name ∧
    (noModeFinding u0 (srcOf u0) (0, 21)).type = u0.type ∧
    (noModeFinding u0 (srcOf u0) (0, 21)).name = u0.name ∧
    (noModeFinding u0 (srcOf u0) (0, 21)).start_line = u0.start_line ∧
    (noModeFinding u0 (srcOf u0) (0, 21)).end_line = u0.end_line :=
  c6_identity_fields u0 (noModeFinding u0 (srcOf u0) (0, 21)) (by decide)

/-- C7: a unit whose source text has no well-terminated `OPEN DATASET`
occurrence (in particular an absent or empty source-text field) produces
no findings. -/
theorem c7_no_occurrence_no_findings (u : Unit)
    (h : ∀ p, p < (srcOf u).length → stmtSpanSpec (srcOf u) p = none) :
    scan_unit u = [] := by
  have hall : ∀ p, STMT_RE_matchAt (srcOf u) p = none := by
    intro p
    by_cases hp : p < (srcOf u).length
    · rw [matchAt_eq_spec]
      exact h p hp
    · exact matchAt_none_of_ge (by omega)
  have hfind : ∀ fuel p, findFromAux (srcOf u) fuel p = none := by
    intro fuel
    induction fuel with
    | zero => intro p; rfl
    | succ fuel ih => intro p; simp [findFromAux, hall p, ih]
  have hiter : STMT_RE_finditer (srcOf u) = [] := by
    unfold STMT_RE_finditer STMT_RE_finditerAux
    simp [hfind]
  unfold scan_unit
  rw [hiter]
  rfl

/-- Witness for C7: the unit with an absent source-text field. -/
theorem c7_witness : scan_unit unitNoCode = [] :=
  c7_no_occurrence_no_findings unitNoCode (fun p hp => absurd hp (Nat.not_lt_zero p))

/-- C8: the `/remediate-array` operation scans each unit of the ordered
batch and returns exactly the units with a non-empty finding list, each
paired with its findings. -/
theorem c8_batch_filter (units : List Unit) :
    scan_rule111 units =
      (units.map (fun u => (u, scan_unit u))).filter (fun r => !r.2.isEmpty) := by
  induction units with
  | nil => rfl
  | cons u rest ih =>
    simp only [scan_rule111, List.map_cons, List.filter_cons]
    cases h : (scan_unit u).isEmpty <;> simp [h, ih]

/-- C10: every finding's issue type is one of the two known kinds, and
its severity is determined by its issue type. -/
theorem c10_issue_type_severity (u : Unit) (f : Finding) (hf : f ∈ scan_unit u) :
    (f.issue_type = "OpenDatasetNoMode" ∨ f.issue_type = "OpenDatasetTextNoEncoding") ∧
    (f.severity = "warning" ↔ f.issue_type = "OpenDatasetNoMode") ∧
    (f.severity = "info" ↔ f.issue_type = "OpenDatasetTextNoEncoding") := by
  obtain ⟨sp, _, hsp⟩ := List.mem_filterMap.mp hf
  rcases spanFinding_cases hsp with rfl | rfl
  · refine ⟨Or.inl rfl, ?_, ?_⟩ <;> simp [noModeFinding]
  · refine ⟨Or.inr rfl, ?_, ?_⟩ <;> simp [textNoEncFinding]

/-- Witness for C10 at the concrete unit `u0`. -/
theorem c10_witness :
    (noModeFinding u0 (srcOf u0) (0, 21)).issue_type = "OpenDatasetNoMode" ∨
    (noModeFinding u0 (srcOf u0) (0, 21)).issue_type = "OpenDatasetTextNoEncoding" :=
  (c10_issue_type_severity u0 (noModeFinding u0 (srcOf u0) (0, 21)) (by decide)).1

/-! ## Case-insensitivity: transfer lemmas

Two texts are case variants of each other exactly when their images under
ASCII lower-casing agree (`t.map lowN = t'.map lowN`).  Every character
class and every matching function of the scanner only looks at characters
through `lowN`-invariant observations, so all of them transfer. -/

theorem lowN_eq_classes {a b : Char} (h : lowN a = lowN b) :
    isWordChar a = isWordChar b ∧ isSpaceChar a = isSpaceChar b ∧
    isDotChar a = isDotChar b ∧ isNlChar a = isNlChar b ∧
    ∀ k, lowEq k a = lowEq k b := by
  have hlast : ∀ k, lowEq k a = lowEq k b := by
    intro k
    unfold lowEq
    rw [h]
  refine ⟨?_, ?_, ?_, ?_, hlast⟩ <;>
    (simp only [isWordChar, isSpaceChar, isDotChar, isNlChar, decide_eq_decide]
     unfold lowN at h
     split_ifs at h <;> omega)

theorem map_lowN_length {t t' : List Char} (hm : t.map lowN = t'.map lowN) :
    t.length = t'.length := by
  have := congrArg List.length hm
  simpa using this

theorem map_lowN_getElem {t t' : List Char} (hm : t.map lowN = t'.map lowN)
    (p : Nat) :
    (t[p]? = none ∧ t'[p]? = none) ∨
      ∃ c c', t[p]? = some c ∧ t'[p]? = some c' ∧ lowN c = lowN c' := by
  have h := congrArg (fun l => l[p]?) hm
  simp only [List.getElem?_map] at h
  cases hg : t[p]? with
  | none =>
    rw [hg] at h
    cases hg' : t'[p]? with
    | none => exact Or.inl ⟨rfl, rfl⟩
    | some c' => rw [hg'] at h; simp at h
  | some c =>
    rw [hg] at h
    cases hg' : t'[p]? with
    | none => rw [hg'] at h; simp at h
    | some c' =>
      rw [hg'] at h
      simp at h
      exact Or.inr ⟨c, c', rfl, rfl, h⟩

theorem countP_nl_rel {l l' : List Char} (hm : l.map lowN = l'.map lowN) :
    l.countP isNlChar = l'.countP isNlChar := by
  induction l generalizing l' with
  | nil => cases l' with
    | nil => rfl
    | cons b bs => simp at hm
  | cons a as ih =>
    cases l' with
    | nil => simp at hm
    | cons b bs =>
      simp at hm
      obtain ⟨h1, h2⟩ := hm
      rw [List.countP_cons, List.countP_cons, (lowN_eq_classes h1).2.2.2.1, ih h2]

theorem matchCI_rel (kw : List Char) : ∀ {l l' : List Char},
    l.map lowN = l'.map lowN →
    (matchCI kw l = none ∧ matchCI kw l' = none) ∨
      ∃ r r', matchCI kw l = some r ∧ matchCI kw l' = some r' ∧
        r.map lowN = r'.map lowN := by
  induction kw with
  | nil =>
    intro l l' hm
    exact Or.inr ⟨l, l', rfl, rfl, hm⟩
  | cons k ks ih =>
    intro l l' hm
    cases l with
    | nil =>
      cases l' with
      | nil => exact Or.inl ⟨rfl, rfl⟩
      | cons b bs => simp at hm
    | cons a as =>
      cases l' with
      | nil => simp at hm
      | cons b bs =>
        simp at hm
        obtain ⟨h1, h2⟩ := hm
        have hke : lowEq k a = lowEq k b := (lowN_eq_classes h1).2.2.2.2 k
        simp only [matchCI]
        by_cases hk : lowEq k a = true
        · rw [if_pos hk, if_pos (hke ▸ hk)]
          exact ih h2
        · rw [if_neg hk, if_neg (hke ▸ hk)]
          exact Or.inl ⟨rfl, rfl⟩

theorem dropWhile_space_rel : ∀ {l l' : List Char}, l.map lowN = l'.map lowN →
    (l.dropWhile isSpaceChar).map lowN = (l'.dropWhile isSpaceChar).map lowN := by
  intro l
  induction l with
  | nil =>
    intro l' hm
    cases l' with
    | nil => rfl
    | cons b bs => simp at hm
  | cons a as ih =>
    intro l' hm
    cases l' with
    | nil => simp at hm
    | cons b bs =>
      simp at hm
      obtain ⟨h1, h2⟩ := hm
      have hs : isSpaceChar a = isSpaceChar b := (lowN_eq_classes h1).2.1
      rw [List.dropWhile_cons, List.dropWhile_cons, ← hs]
      by_cases hsa : isSpaceChar a = true
      · rw [if_pos hsa, if_pos hsa]
        exact ih h2
      · rw [if_neg hsa, if_neg hsa]
        simp [h1, h2]

theorem eatSpaces_rel {l l' : List Char} (hm : l.map lowN = l'.map lowN) :
    (eatSpaces l = none ∧ eatSpaces l' = none) ∨
      ∃ r r', eatSpaces l = some r ∧ eatSpaces l' = some r' ∧
        r.map lowN = r'.map lowN := by
  cases l with
  | nil =>
    cases l' with
    | nil => exact Or.inl ⟨rfl, rfl⟩
    | cons b bs => simp at hm
  | cons a as =>
    cases l' with
    | nil => simp at hm
    | cons b bs =>
      simp at hm
      obtain ⟨h1, h2⟩ := hm
      have hs : isSpaceChar a = isSpaceChar b := (lowN_eq_classes h1).2.1
      simp only [eatSpaces]
      by_cases hsa : isSpaceChar a = true
      · rw [if_pos hsa, if_pos (hs ▸ hsa)]
        exact Or.inr ⟨_, _, rfl, rfl, dropWhile_space_rel h2⟩
      · rw [if_neg hsa, if_neg (hs ▸ hsa)]
        exact Or.inl ⟨rfl, rfl⟩

theorem headNotWord_rel {l l' : List Char} (hm : l.map lowN = l'.map lowN) :
    headNotWord l = headNotWord l' := by
  cases l with
  | nil =>
    cases l' with
    | nil => rfl
    | cons b bs => simp at hm
  | cons a as =>
    cases l' with
    | nil => simp at hm
    | cons b bs =>
      simp at hm
      rw [headNotWord, headNotWord, (lowN_eq_classes hm.1).1]

theorem isEmpty_rel {l l' : List Char} (hm : l.map lowN = l'.map lowN) :
    l.isEmpty = l'.isEmpty := by
  cases l with
  | nil =>
    cases l' with
    | nil => rfl
    | cons b bs => simp at hm
  | cons a as =>
    cases l' with
    | nil => simp at hm
    | cons b bs => rfl

theorem modeHead_rel {l l' : List Char} (hm : l.map lowN = l'.map lowN) :
    modeHead l = modeHead l' := by
  unfold modeHead
  rcases matchCI_rel "in".data hm with ⟨e1, e1'⟩ | ⟨r1, r1', e1, e1', hr1⟩
  · simp only [e1, e1']
  · simp only [e1, e1']
    rcases eatSpaces_rel hr1 with ⟨e2, e2'⟩ | ⟨r2, r2', e2, e2', hr2⟩
    · simp only [e2, e2']
    · simp only [e2, e2']
      rcases matchCI_rel "text".data hr2 with ⟨e3, e3'⟩ | ⟨r3, r3', e3, e3', hr3⟩
      · simp only [e3, e3']
        rcases matchCI_rel "binary".data hr2 with ⟨e4, e4'⟩ | ⟨r4, r4', e4, e4', hr4⟩
        · simp only [e4, e4']
        · simp only [e4, e4']
          rcases eatSpaces_rel hr4 with ⟨e5, e5'⟩ | ⟨r5, r5', e5, e5', hr5⟩
          · simp only [e5, e5']
          · simp only [e5, e5']
            rcases matchCI_rel "mode".data hr5 with ⟨e6, e6'⟩ | ⟨r6, r6', e6, e6', hr6⟩
            · simp only [e6, e6']
            · simp only [e6, e6']
              exact headNotWord_rel hr6
      · simp only [e3, e3']
        rcases eatSpaces_rel hr3 with ⟨e5, e5'⟩ | ⟨r5, r5', e5, e5', hr5⟩
        · simp only [e5, e5']
        · simp only [e5, e5']
          rcases matchCI_rel "mode".data hr5 with ⟨e6, e6'⟩ | ⟨r6, r6', e6, e6', hr6⟩
          · simp only [e6, e6']
          · simp only [e6, e6']
            exact headNotWord_rel hr6

theorem textModeHead_rel {l l' : List Char} (hm : l.map lowN = l'.map lowN) :
    textModeHead l = textModeHead l' := by
  unfold textModeHead
  rcases matchCI_rel "in".data hm with ⟨e1, e1'⟩ | ⟨r1, r1', e1, e1', hr1⟩
  · simp only [e1, e1']
  · simp only [e1, e1']
    rcases eatSpaces_rel hr1 with ⟨e2, e2'⟩ | ⟨r2, r2', e2, e2', hr2⟩
    · simp only [e2, e2']
    · simp only [e2, e2']
      rcases matchCI_rel "text".data hr2 with ⟨e3, e3'⟩ | ⟨r3, r3', e3, e3', hr3⟩
      · simp only [e3, e3']
      · simp only [e3, e3']
        rcases eatSpaces_rel hr3 with ⟨e5, e5'⟩ | ⟨r5, r5', e5, e5', hr5⟩
        · simp only [e5, e5']
        · simp only [e5, e5']
          rcases matchCI_rel "mode".data hr5 with ⟨e6, e6'⟩ | ⟨r6, r6', e6, e6', hr6⟩
          · simp only [e6, e6']
          · simp only [e6, e6']
            exact headNotWord_rel hr6

theorem encHead_rel {l l' : List Char} (hm : l.map lowN = l'.map lowN) :
    encHead l = encHead l' := by
  unfold encHead
  rcases matchCI_rel "encoding".data hm with ⟨e1, e1'⟩ | ⟨r1, r1', e1, e1', hr1⟩
  · simp only [e1, e1']
  · simp only [e1, e1']
    rw [headNotWord_rel hr1]
    by_cases hw : headNotWord r1' = true
    · rw [if_pos hw, if_pos hw]
      rcases eatSpaces_rel hr1 with ⟨e2, e2'⟩ | ⟨r2, r2', e2, e2', hr2⟩
      · simp only [e2, e2']
      · simp only [e2, e2']
        rw [isEmpty_rel hr2]
    · rw [if_neg hw, if_neg hw]

theorem searchAux_rel {f : List Char → Bool}
    (hf : ∀ l l', l.map lowN = l'.map lowN → f l = f l') :
    ∀ {pw : Bool} {l l' : List Char}, l.map lowN = l'.map lowN →
      searchAux f pw l = searchAux f pw l' := by
  intro pw l
  induction l generalizing pw with
  | nil =>
    intro l' hm
    cases l' with
    | nil => rfl
    | cons b bs => simp at hm
  | cons a as ih =>
    intro l' hm
    cases l' with
    | nil => simp at hm
    | cons b bs =>
      simp at hm
      obtain ⟨h1, h2⟩ := hm
      show (!pw && f (a :: as) || searchAux f (isWordChar a) as) =
        (!pw && f (b :: bs) || searchAux f (isWordChar b) bs)
      rw [hf (a :: as) (b :: bs) (by simp [h1, h2]), (lowN_eq_classes h1).1, ih h2]

theorem MODE_RE_rel {l l' : List Char} (hm : l.map lowN = l'.map lowN) :
    MODE_RE l = MODE_RE l' :=
  searchAux_rel (fun _ _ h => modeHead_rel h) hm

theorem TEXT_MODE_RE_rel {l l' : List Char} (hm : l.map lowN = l'.map lowN) :
    TEXT_MODE_RE l = TEXT_MODE_RE l' :=
  searchAux_rel (fun _ _ h => textModeHead_rel h) hm

theorem ENCODING_RE_rel {l l' : List Char} (hm : l.map lowN = l'.map lowN) :
    ENCODING_RE l = ENCODING_RE l' :=
  searchAux_rel (fun _ _ h => encHead_rel h) hm

theorem notWordBefore_rel {t t' : List Char} (hm : t.map lowN = t'.map lowN) :
    ∀ p, notWordBefore t p = notWordBefore t' p := by
  intro p
  unfold notWordBefore
  rcases map_lowN_getElem hm (p - 1) with ⟨h1, h2⟩ | ⟨c, c', h1, h2, hcc⟩
  · simp only [h1, h2]
  · simp only [h1, h2, (lowN_eq_classes hcc).1]

theorem notWordAt_rel {t t' : List Char} (hm : t.map lowN = t'.map lowN) :
    ∀ p, notWordAt t p = notWordAt t' p := by
  intro p
  unfold notWordAt
  rcases map_lowN_getElem hm p with ⟨h1, h2⟩ | ⟨c, c', h1, h2, hcc⟩
  · simp only [h1, h2]
  · simp only [h1, h2, (lowN_eq_classes hcc).1]

theorem kwAt_rel {t t' : List Char} (hm : t.map lowN = t'.map lowN) :
    ∀ (kw : List Char) (p : Nat), kwAt t p kw = kwAt t' p kw := by
  intro kw
  induction kw with
  | nil => intro p; rfl
  | cons k ks ih =>
    intro p
    simp only [kwAt]
    rcases map_lowN_getElem hm p with ⟨h1, h2⟩ | ⟨c, c', h1, h2, hcc⟩
    · simp [h1, h2, ih]
    · simp [h1, h2, (lowN_eq_classes hcc).2.2.2.2 k, ih]

theorem spacesLenAux_rel {t t' : List Char} (hm : t.map lowN = t'.map lowN) :
    ∀ (fuel p : Nat), spacesLenAux t fuel p = spacesLenAux t' fuel p := by
  intro fuel
  induction fuel with
  | zero => intro p; rfl
  | succ fuel ih =>
    intro p
    simp only [spacesLenAux]
    rcases map_lowN_getElem hm p with ⟨h1, h2⟩ | ⟨c, c', h1, h2, hcc⟩
    · simp [h1, h2]
    · simp only [h1, h2, ← (lowN_eq_classes hcc).2.1]
      by_cases hs : isSpaceChar c = true <;> simp [hs, ih]

theorem spacesLen_rel {t t' : List Char} (hm : t.map lowN = t'.map lowN) :
    ∀ p, spacesLen t p = spacesLen t' p := by
  intro p
  unfold spacesLen
  rw [map_lowN_length hm]
  exact spacesLenAux_rel hm _ _

theorem firstDotAux_rel {t t' : List Char} (hm : t.map lowN = t'.map lowN) :
    ∀ (fuel p : Nat), firstDotAux t fuel p = firstDotAux t' fuel p := by
  intro fuel
  induction fuel with
  | zero => intro p; rfl
  | succ fuel ih =>
    intro p
    simp only [firstDotAux]
    rcases map_lowN_getElem hm p with ⟨h1, h2⟩ | ⟨c, c', h1, h2, hcc⟩
    · simp [h1, h2]
    · simp only [h1, h2, ← (lowN_eq_classes hcc).2.2.1]
      by_cases hd : isDotChar c = true <;> simp [hd, ih]

theorem firstDotFrom_rel {t t' : List Char} (hm : t.map lowN = t'.map lowN) :
    ∀ p, firstDotFrom t p = firstDotFrom t' p := by
  intro p
  unfold firstDotFrom
  rw [map_lowN_length hm]
  exact firstDotAux_rel hm _ _

theorem matchAt_rel {t t' : List Char} (hm : t.map lowN = t'.map lowN)
    (p : Nat) : STMT_RE_matchAt t p = STMT_RE_matchAt t' p := by
  unfold STMT_RE_matchAt
  simp only [notWordBefore_rel hm, kwAt_rel hm, spacesLen_rel hm,
    notWordAt_rel hm, firstDotFrom_rel hm]

theorem findFromAux_rel {t t' : List Char} (hm : t.map lowN = t'.map lowN) :
    ∀ (fuel p : Nat), findFromAux t fuel p = findFromAux t' fuel p := by
  intro fuel
  induction fuel with
  | zero => intro p; rfl
  | succ fuel ih =>
    intro p
    simp only [findFromAux, matchAt_rel hm]
    cases STMT_RE_matchAt t' p <;> simp [ih]

theorem finditerAux_rel {t t' : List Char} (hm : t.map lowN = t'.map lowN) :
    ∀ (fuel p : Nat), STMT_RE_finditerAux t fuel p = STMT_RE_finditerAux t' fuel p := by
  intro fuel
  induction fuel with
  | zero => intro p; rfl
  | succ fuel ih =>
    intro p
    simp only [STMT_RE_finditerAux, findFromAux_rel hm, map_lowN_length hm]
    cases hfr : findFromAux t' (t'.length + 1 - p) p with
    | none => rfl
    | some se =>
      obtain ⟨s, e⟩ := se
      simp [ih]

theorem finditer_rel {t t' : List Char} (hm : t.map lowN = t'.map lowN) :
    STMT_RE_finditer t = STMT_RE_finditer t' := by
  unfold STMT_RE_finditer
  rw [map_lowN_length hm]
  exact finditerAux_rel hm _ _

theorem sliceStmt_rel {t t' : List Char} (hm : t.map lowN = t'.map lowN)
    (sp : Nat × Nat) : (sliceStmt t sp).map lowN = (sliceStmt t' sp).map lowN := by
  simp only [sliceStmt, List.map_take, List.map_drop, hm]

theorem line_of_offset_rel {t t' : List Char} (hm : t.map lowN = t'.map lowN)
    (off : Nat) : line_of_offset t off = line_of_offset t' off := by
  unfold line_of_offset
  rw [@countP_nl_rel (t.take off) (t'.take off)
    (by rw [List.map_take, List.map_take, hm])]

theorem spanFinding_core_rel {u : Unit} {t t' : List Char}
    (hm : t.map lowN = t'.map lowN) (sp : Nat × Nat) :
    Option.map findingCore (spanFinding u t sp) =
      Option.map findingCore (spanFinding u t' sp) := by
  have hst := sliceStmt_rel hm sp
  unfold spanFinding
  simp only [ MODE_RE_rel hst, TEXT_MODE_RE_rel hst, ENCODING_RE_rel hst]
  by_cases h1 : MODE_RE (sliceStmt t' sp) = true
  · by_cases h2 : (TEXT_MODE_RE (sliceStmt t' sp) && !ENCODING_RE (sliceStmt t' sp)) = true
    · simp [h1, h2, findingCore, textNoEncFinding, line_of_offset_rel hm]
    · have h2' : (TEXT_MODE_RE (sliceStmt t' sp) && !ENCODING_RE (sliceStmt t' sp)) = false := by
        simpa using h2
      simp [h1, h2']
  · have h1' : MODE_RE (sliceStmt t' sp) = false := by simpa using h1
    simp [h1', findingCore, noModeFinding, line_of_offset_rel hm]

theorem scan_unit_core_rel (u : Unit) {t t' : List Char}
    (hm : t.map lowN = t'.map lowN) :
    (scan_unit { u with code := some t }).map findingCore =
      (scan_unit { u with code := some t' }).map findingCore := by
  show ((STMT_RE_finditer t).filterMap (spanFinding { u with code := some t } t)).map
      findingCore =
    ((STMT_RE_finditer t').filterMap (spanFinding { u with code := some t' } t')).map
      findingCore
  rw [List.map_filterMap, List.map_filterMap, finditer_rel hm]
  apply List.filterMap_congr
  intro sp _
  have h := @spanFinding_core_rel { u with code := some t } t t' hm sp
  have h2 : ∀ x : Nat × Nat, spanFinding { u with code := some t } t' x =
      spanFinding { u with code := some t' } t' x := by
    intro x
    unfold spanFinding noModeFinding textNoEncFinding
    rfl
  rw [h, h2]

/-- C9: statement matching and clause classification are case-insensitive:
replacing a source text by any case variant of it (same characters up to
ASCII letter case — which covers re-casing any keyword occurrence) leaves
the statement span offsets and every finding's issue type, severity and
line unchanged. -/
theorem c9_case_insensitivity (u : Unit) (t t' : List Char)
    (hm : t.map lowN = t'.map lowN) :
    STMT_RE_finditer t = STMT_RE_finditer t' ∧
    (scan_unit { u with code := some t }).map findingCore =
      (scan_unit { u with code := some t' }).map findingCore :=
  ⟨finditer_rel hm, scan_unit_core_rel u hm⟩

/-- Witness for C9: a lower-case and an upper-case spelling of the same
statement give the same spans and the same finding cores. -/
theorem c9_witness :
    STMT_RE_finditer tLow = STMT_RE_finditer tUp ∧
    (scan_unit { u0 with code := some tLow }).map findingCore =
      (scan_unit { u0 with code := some tUp }).map findingCore :=
  c9_case_insensitivity u0 tLow tUp (by decide)

end Rule111
